import Mathlib

/-!
# Verification of the Yemen market-analysis ECM pipeline (stage 2) and
# spatial-weights construction (stage 5)

Shallow embedding of `Econometrics/2_ECM_Analysis.py` and of the
spatial-weights export loop of
`Econometrics/5_data_prepration_for_spatial_chart.py`.

Modelling conventions:
* pandas/numpy float values are modelled by `Val`: either an exact rational
  (`Val.num`) or one of the non-finite sentinels `Val.nan` (NaN, the value
  dropped by `dropna`/detected by `isnull`) and `Val.inf` (±infinity,
  detected by `np.isinf`).  The pipeline rejects any series holding a
  non-finite value before numeric work starts, so rational arithmetic is
  exact on every path that is reached.
* Statistical library calls (ADF, KPSS, Engle-Granger, VECM fitting,
  the individual diagnostic tests, `np.log`) are external effects: each is
  an explicit oracle parameter; a Python exception raised by a call is the
  oracle returning `none`.  All control flow around the oracles is
  translated from the source.
* A pandas Series is a list of (integer index label, value) pairs; `concat`
  with `join='inner'` and `align(join='inner')` join on index labels.
-/

namespace YemenEcm

/-- Configuration constant `MIN_OBSERVATIONS` from `project_config.py`. -/
def MIN_OBSERVATIONS : ℕ := 30

/-- Configuration constant `ECM_LAGS` from `project_config.py`. -/
def ECM_LAGS : ℕ := 2

/-- Configuration constant `COINTEGRATION_MAX_LAGS` from `project_config.py`. -/
def COINTEGRATION_MAX_LAGS : ℕ := 12

/-- A pandas/numpy cell value: a finite rational, NaN, or ±infinity. -/
inductive Val where
  | num : ℚ → Val
  | nan : Val
  | inf : Val
deriving DecidableEq, Repr

namespace Val

/-- `pd.isnull` on a scalar: true exactly on NaN. -/
def isNull : Val → Bool
  | nan => true
  | _ => false

/-- `np.isinf` on a scalar: true exactly on ±infinity. -/
def isInf : Val → Bool
  | inf => true
  | _ => false

/-- Elementwise `v > 0` in numpy semantics: NaN compares false,
(+)infinity compares true. -/
def isPos : Val → Bool
  | num q => decide (0 < q)
  | nan => false
  | inf => true

/-- Subtraction as used by `Series.diff` (only ever reached on finite
values, since the NaN/Inf guard precedes every transformation). -/
def sub : Val → Val → Val
  | num a, num b => num (a - b)
  | _, _ => nan

end Val

/-- The NaN/Inf guard of `run_stationarity_tests`
(`series.isnull().any() or np.isinf(series).any()`). -/
def hasNanInf (series : List Val) : Bool :=
  series.any (fun v => v.isNull || v.isInf)

/-- The four candidate transformations of `run_stationarity_tests`. -/
inductive Transform where
  | original
  | diff
  | log
  | logDiff
deriving DecidableEq, Repr

/-- Candidate list in the insertion order of the Python `transformations`
dict: `original`, `diff`, and — only when every value is strictly
positive — `log` and `log_diff` (lines 67-70). -/
def candidates (allPos : Bool) : List Transform :=
  [Transform.original, Transform.diff] ++
    (if allPos then [Transform.log, Transform.logDiff] else [])

/-- An indexed series (pandas Series: index labels paired with values). -/
abbrev Series := List (ℕ × Val)

/-- `series.diff().dropna()` on an indexed series: consecutive
differences keep the later row's label; the leading NaN (and any NaN
produced from non-finite inputs) is dropped. -/
def diffDropna (s : Series) : Series :=
  ((s.zip s.tail).map (fun p => (p.2.1, Val.sub p.1.2 p.2.2))).filter
    (fun p => !p.2.isNull)

/-- `np.log(series)`: elementwise log through the abstract float-log
oracle `lg` (only applied on all-positive series). -/
def logSeries (lg : ℚ → ℚ) (s : Series) : Series :=
  s.map (fun p => (p.1, match p.2 with
    | Val.num q => Val.num (lg q)
    | v => v))

/-- The transformed series associated to each candidate (lines 67-70). -/
def transformSeries (lg : ℚ → ℚ) (s : Series) : Transform → Series
  | Transform.original => s
  | Transform.diff => diffDropna s
  | Transform.log => logSeries lg s
  | Transform.logDiff => diffDropna (logSeries lg s)

/-- Per-candidate ADF/KPSS record stored in the `results` dict
(lines 79-82). -/
structure TransformTestResult where
  adfStat : ℚ
  adfP : ℚ
  adfStationary : Bool
  kpssStat : ℚ
  kpssP : ℚ
  kpssStationary : Bool
deriving DecidableEq, Repr

/-- ADF/KPSS oracle for one candidate: `some (adfStat, adfP, kpssStat,
kpssP)` when both library calls return, `none` when either raises (the
whole candidate body is one `try`). -/
abbrev StatTests := Transform → Option (ℚ × ℚ × ℚ × ℚ)

/-- Whether a candidate is declared stationary: both tests return and
ADF p-value < 0.05 and KPSS p-value > 0.05 (lines 77-78, 83). -/
def isStationaryCand (tests : StatTests) (t : Transform) : Bool :=
  match tests t with
  | some (_, adfP, _, kpssP) => decide (adfP < 0.05) && decide (0.05 < kpssP)
  | none => false

/-- The `for transform_name, transformed_series in transformations.items()`
loop (lines 73-87): returns the candidates actually evaluated (tests
invoked), the accumulated `results` entries, and the selected candidate
(`some` exactly when the loop hit `break`). -/
def statLoop (tests : StatTests) :
    List Transform → List Transform × List (Transform × TransformTestResult) × Option Transform
  | [] => ([], [], none)
  | t :: rest =>
    match tests t with
    | none =>
      -- the `except` branch: log and continue, no `results` entry
      (t :: (statLoop tests rest).1, (statLoop tests rest).2.1, (statLoop tests rest).2.2)
    | some (adfS, adfP, kpssS, kpssP) =>
      let entry := (t, TransformTestResult.mk adfS adfP (decide (adfP < 0.05))
        kpssS kpssP (decide (0.05 < kpssP)))
      if decide (adfP < 0.05) && decide (0.05 < kpssP) then
        ([t], [entry], some t)
      else
        (t :: (statLoop tests rest).1, entry :: (statLoop tests rest).2.1,
          (statLoop tests rest).2.2)

/-- Output record of `run_stationarity_tests` (line 91). -/
structure StationarityOutcome where
  transformation : Transform
  series : Series
  results : List (Transform × TransformTestResult)
deriving DecidableEq, Repr

/-- `run_stationarity_tests` (lines 62-91): rejects series holding
NaN/Inf, otherwise walks the candidate list, short-circuits at the first
stationary candidate, and falls back to `original`. -/
def run_stationarity_tests (tests : StatTests) (lg : ℚ → ℚ)
    (series : List Val) : Option StationarityOutcome :=
  if hasNanInf series then none
  else
    let cands := candidates (series.all Val.isPos)
    let chosen := (statLoop tests cands).2.2.getD Transform.original
    some ⟨chosen, transformSeries lg series.enum chosen, (statLoop tests cands).2.1⟩

/-- The candidates the loop evaluates (projection of `statLoop`). -/
def evaluatedCands (tests : StatTests) (series : List Val) : List Transform :=
  (statLoop tests (candidates (series.all Val.isPos))).1

/-! ## Cointegration testing (`run_cointegration_tests`, lines 93-114) -/

/-- `pd.concat([a, b], axis=1, join='inner')` on two Series: rows whose
index label occurs in both, in the order of the first (index labels are
unique in every use here). -/
def innerJoinV (a b : Series) : List (Val × Val) :=
  a.filterMap (fun p => (b.lookup p.1).map (fun w => (p.2, w)))

/-- Raw output of `arch.unitroot.engle_granger` (the fields the script
reads: statistic, p-value, rho; the critical-values mapping is carried
through opaquely and not modelled). `none` = the call raised. -/
structure EGRaw where
  stat : ℚ
  pvalue : ℚ
  rho : ℚ
deriving DecidableEq, Repr

/-- Oracle for the Engle-Granger library call on the aligned pairs. -/
abbrev EGOracle := List (Val × Val) → Option EGRaw

/-- The `engle_granger` entry of a cointegration result (lines 104-107):
`cointegrated` is defined as p-value < 0.05. -/
structure EGResult where
  stat : ℚ
  pvalue : ℚ
  cointegrated : Bool
  rho : ℚ
deriving DecidableEq, Repr

/-- `run_cointegration_tests` result (line 100-101): the Engle-Granger
record plus the transformation labels copied from the stationarity
results. -/
structure CointResult where
  eg : EGResult
  priceTransformation : Transform
  conflictTransformation : Transform
deriving DecidableEq, Repr

/-- `run_cointegration_tests` (lines 93-114): aligns the two series by
inner join on index, fails on fewer than 2 aligned rows, runs the
Engle-Granger oracle on the aligned pairs, and returns `none` when that
call raised (the `engle_granger` entry would be `None`, line 110-112). -/
def run_cointegration_tests (egO : EGOracle) (price conflict : Series)
    (priceT conflictT : Transform) : Option CointResult :=
  let combined := innerJoinV price conflict
  if combined.length < 2 then none
  else
    match egO combined with
    | none => none
    | some r =>
      some ⟨⟨r.stat, r.pvalue, decide (r.pvalue < 0.05), r.rho⟩, priceT, conflictT⟩

/-! ## The per-unit pipeline of `main` (lines 416-441) and the ECM gate
of `run_ecm_analysis` (lines 145-171)

`main` processes each (commodity, regime) unit independently and stores
its stationarity/cointegration results under the unit's key; since no
state is shared across units, the per-unit slice of both dicts is a
function of that unit's dataframe alone, modelled by `mainPrepUnit`. -/

/-- One row of a (commodity, regime) group dataframe: its `usdprice`
and `conflict_intensity` cells. -/
structure Row where
  usdprice : Val
  conflict : Val
deriving DecidableEq, Repr

/-- The `usdprice` column. -/
def priceCol (df : List Row) : List Val := df.map (·.usdprice)

/-- The `conflict_intensity` column. -/
def conflictCol (df : List Row) : List Val := df.map (·.conflict)

/-- What `main` (lines 422-441) stores for one unit: the pair of
stationarity results (or `none` when the unit was skipped before/at the
stationarity stage) and the cointegration result (or `none` when absent).
Note the raw columns — not the transformed series — are handed to
`run_cointegration_tests` (line 436). -/
def mainPrepUnit (testsP testsC : StatTests) (egO : EGOracle) (lg : ℚ → ℚ)
    (df : List Row) :
    Option (StationarityOutcome × StationarityOutcome) × Option CointResult :=
  if df.length < MIN_OBSERVATIONS then (none, none)
  else
    match run_stationarity_tests testsP lg (priceCol df),
          run_stationarity_tests testsC lg (conflictCol df) with
    | some sp, some sc =>
      (some (sp, sc),
        run_cointegration_tests egO (priceCol df).enum (conflictCol df).enum
          sp.transformation sc.transformation)
    | _, _ => (none, none)

/-- Length after `y, x = df.usdprice.dropna(), df[[conflict]].dropna();
y, x = y.align(x, join='inner')` (lines 161-162): both columns share the
group's index, so the aligned index is the set of rows where neither
cell is NaN. -/
def alignedLen (df : List Row) : ℕ :=
  (df.filter (fun r => !r.usdprice.isNull && !r.conflict.isNull)).length

/-- The gate of `run_ecm_analysis` (lines 150-165): ECM estimation is
attempted iff the row count passes `MIN_OBSERVATIONS`, a stationarity
result exists, a cointegration result exists with `cointegrated` true,
and the aligned length still passes `MIN_OBSERVATIONS`. -/
def ecmAttempted (df : List Row)
    (statRes : Option (StationarityOutcome × StationarityOutcome))
    (cointRes : Option CointResult) : Bool :=
  if df.length < MIN_OBSERVATIONS then false
  else if statRes.isNone then false
  else
    match cointRes with
    | none => false
    | some c =>
      if !c.eg.cointegrated then false
      else decide (MIN_OBSERVATIONS ≤ alignedLen df)

/-! ## Diagnostics block (lines 197-229) and unit membership in the
ECM results list -/

/-- Oracles for the seven library calls of the diagnostics `try` block,
in source order; `none` = the call raised.  (`bg`: Ljung-Box p-value;
`jb`: statistic, p-value, skew, kurtosis; `bp`: LM statistic, p-value.) -/
structure DiagOracles where
  bg : Option ℚ
  arch : Option ℚ
  jb : Option (ℚ × ℚ × ℚ × ℚ)
  dw : Option ℚ
  bp : Option (ℚ × ℚ)
  acfVals : Option (List ℚ)
  pacfVals : Option (List ℚ)
deriving DecidableEq, Repr

/-- The flat diagnostic record appended to `all_diagnostics`
(lines 214-225). -/
structure DiagRecord where
  breuschGodfreyPvalue : ℚ
  archTestPvalue : ℚ
  jarqueBeraPvalue : ℚ
  breuschPaganLmStat : ℚ
  breuschPaganPvalue : ℚ
  durbinWatsonStat : ℚ
  skewness : ℚ
  kurtosis : ℚ
  acf : List ℚ
  pacf : List ℚ
deriving DecidableEq, Repr

/-- The single `try` block of lines 206-229: the seven tests run in
sequence inside one handler, so the first raising call aborts the whole
block (`continue`) and no record is produced. -/
def diagnosticsBlock (o : DiagOracles) : Option DiagRecord :=
  match o.bg with
  | none => none
  | some bgP =>
    match o.arch with
    | none => none
    | some archP =>
      match o.jb with
      | none => none
      | some (_, jbP, skew, kurt) =>
        match o.dw with
        | none => none
        | some dwS =>
          match o.bp with
          | none => none
          | some (bpStat, bpP) =>
            match o.acfVals with
            | none => none
            | some acfV =>
              match o.pacfVals with
              | none => none
              | some pacfV =>
                some ⟨bgP, archP, jbP, bpStat, bpP, dwS, skew, kurt, acfV, pacfV⟩

/-- Result of a successful `estimate_ecm` call as consumed by the later
stages; only the first-equation residual column matters for the skip
logic (lines 197-205). `none` = estimation raised (line 168-171). -/
structure FitRes where
  residY : List ℚ
deriving DecidableEq, Repr

/-- Whether the unit contributes an entry to `all_results`
(lines 147-310): the gate must pass, estimation must succeed, the
residual column must be nonempty, `x_diagnostic` must match the residual
length (which fails exactly when the aligned regressor column is shorter
than the residual column), and the diagnostics block must succeed —
each failure executes `continue`, dropping the unit. -/
def unitInEcmResults (df : List Row)
    (statRes : Option (StationarityOutcome × StationarityOutcome))
    (cointRes : Option CointResult) (fit : Option FitRes)
    (diag : DiagOracles) : Bool :=
  ecmAttempted df statRes cointRes &&
    match fit with
    | none => false
    | some f =>
      !f.residY.isEmpty && decide (f.residY.length ≤ alignedLen df) &&
        (diagnosticsBlock diag).isSome

/-! ## Lag selection and model specification (`estimate_ecm`,
lines 116-127) -/

/-- The specification the VECM is fitted with (line 125):
`VECM(endog, k_ar_diff=optimal_lags, coint_rank=1, deterministic='ci')`. -/
structure VecmSpec where
  kArDiff : ℕ
  cointRank : ℕ
  deterministic : String
deriving DecidableEq, Repr

/-- Lines 123-124: `optimal_lags = lag_order.aic if lag_order.aic is not
None else ecm_lags; optimal_lags = max(1, min(optimal_lags, ecm_lags))`.
`aicSelected` is the (possibly absent) AIC-chosen order returned by
`select_order(endog, max_lags, deterministic='ci')`. -/
def optimalLags (aicSelected : Option ℕ) (ecmLags : ℕ) : ℕ :=
  max 1 (min (aicSelected.getD ecmLags) ecmLags)

/-- The model constructed by `estimate_ecm` (line 125), as a function of
the lag-selection outcome. -/
def estimateEcmSpec (aicSelected : Option ℕ) (ecmLags : ℕ) : VecmSpec :=
  ⟨optimalLags aicSelected ecmLags, 1, "ci"⟩

/-! ## Information criteria (`compute_model_criteria`, lines 132-143)

`np.log` on floats is the abstract oracle `ln`; the integer bookkeeping
(`neqs`, `results.nobs`, `model.k_ar_diff`, `results.coint_rank`) is
exact. -/

/-- Line 134: `n_obs = model.neqs * (results.nobs - model.k_ar_diff)`. -/
def nObsOf (neqs nobs kArDiff : ℤ) : ℤ := neqs * (nobs - kArDiff)

/-- Line 136: `k_params = model.neqs * (model.k_ar_diff + 1) +
results.coint_rank`. -/
def kParamsOf (neqs kArDiff cointRank : ℤ) : ℤ := neqs * (kArDiff + 1) + cointRank

/-- `compute_model_criteria` (lines 132-143): returns (AIC, BIC, HQIC),
with the local variables `n_obs` and `k_params` given by `nObsOf` and
`kParamsOf`. -/
def compute_model_criteria (ln : ℚ → ℚ) (llf : ℚ)
    (neqs nobs kArDiff cointRank : ℤ) : ℚ × ℚ × ℚ :=
  (-2 * llf + 2 * (kParamsOf neqs kArDiff cointRank : ℚ),
   -2 * llf + ln (nObsOf neqs nobs kArDiff : ℚ) * (kParamsOf neqs kArDiff cointRank : ℚ),
   -2 * llf + 2 * ln (ln (nObsOf neqs nobs kArDiff : ℚ)) *
     (kParamsOf neqs kArDiff cointRank : ℚ))

/-! ## FEVD fallback (lines 267-284)

The moving-average slices `ma_rep[:, :, j]` are the abstract matrix
family `ma`, the number of loop steps `ma_rep.shape[2]` is the parameter
`steps`, and `results.sigma_u` is the matrix `sigma`.  The code sets
`omega = np.dot(results.sigma_u, results.sigma_u.T)` (line 273) and for
each step recomputes the accumulated variance from zero (lines 275-280). -/

/-- The inner accumulation loop for step `i` (lines 276-278):
`variance += ma[j] @ omega @ ma[j].T` for `j = 0..i`. -/
def fevdVariance {n : ℕ} (ma : ℕ → Matrix (Fin n) (Fin n) ℚ)
    (omega : Matrix (Fin n) (Fin n) ℚ) (i : ℕ) : Matrix (Fin n) (Fin n) ℚ :=
  (List.range (i + 1)).foldl (fun acc j => acc + ma j * omega * (ma j).transpose) 0

/-- Line 279: `np.diag(variance) / np.sum(np.diag(variance))`. -/
def fevdStep {n : ℕ} (ma : ℕ → Matrix (Fin n) (Fin n) ℚ)
    (omega : Matrix (Fin n) (Fin n) ℚ) (i : ℕ) : Fin n → ℚ :=
  let v := fevdVariance ma omega i
  fun idx => v.diag idx / (∑ d, v.diag d)

/-- The FEVD fallback (lines 272-280) exactly as the code computes it,
with `omega = sigma @ sigma.T`. -/
def fevdFallback {n : ℕ} (ma : ℕ → Matrix (Fin n) (Fin n) ℚ)
    (sigma : Matrix (Fin n) (Fin n) ℚ) (steps : ℕ) : List (Fin n → ℚ) :=
  (List.range steps).map (fun i => fevdStep ma (sigma * sigma.transpose) i)

/-- Modelled from the spec claim for comparison: the same fallback but
with the middle matrix being `Σ_u` (the residual covariance `sigma_u`)
itself, as the claim states, rather than `sigma_u @ sigma_u.T`. -/
def specFevdFallback {n : ℕ} (ma : ℕ → Matrix (Fin n) (Fin n) ℚ)
    (sigma : Matrix (Fin n) (Fin n) ℚ) (steps : ℕ) : List (Fin n → ℚ) :=
  (List.range steps).map (fun i => fevdStep ma sigma i)

/-! ## Spatial-weights construction
(`export_spatial_weights`, `5_data_prepration_for_spatial_chart.py`,
lines 114-168)

The KNN graph build and its connectivity check are external library
calls; `connected k` is the oracle for
`is_fully_connected(KNN.from_dataframe(unique_gdf, k=k))`. -/

/-- The `while k <= max_k` loop (lines 124-134), driven by the number of
remaining admissible k values (`remaining = max_k + 1 - k`): at each
iteration the KNN graph for the current `k` is built and checked; on
success the loop breaks with that `k`, otherwise `k += 1`.  Returns the
value of `k` when the loop exits (the breaking `k`, or `max_k + 1`). -/
def loopRun (connected : ℕ → Bool) (k : ℕ) : ℕ → ℕ
  | 0 => k
  | r + 1 => if connected k then k else loopRun connected (k + 1) r

/-- Number of loop iterations (KNN builds inside the loop) executed. -/
def loopIters (connected : ℕ → Bool) (k : ℕ) : ℕ → ℕ
  | 0 => 0
  | r + 1 => if connected k then 1 else 1 + loopIters connected (k + 1) r

/-- The k whose KNN weights the function finally uses (lines 124-140):
the loop's exit value, except that when the loop exhausted `max_k`
without success the weights are rebuilt with `k_final = k - 1 = max_k`
(lines 136-140) instead of raising. -/
def finalK (connected : ℕ → Bool) (initK maxK : ℕ) : ℕ :=
  let k := loopRun connected initK (maxK + 1 - initK)
  if maxK < k then k - 1 else k

/-- The weights object returned, through the abstract KNN builder. -/
def finalWeights {W : Type} (knn : ℕ → W) (connected : ℕ → Bool)
    (initK maxK : ℕ) : W :=
  knn (finalK connected initK maxK)

/-! ## Spatial-weights JSON export (lines 142-156) -/

/-- The `for region_idx, neighbors in neighbors_dict.items()` loop
(lines 145-156): out-of-bounds region indices are skipped; each neighbor
index is kept only if it differs from the region's own index and is in
bounds; regions whose filtered neighbor list is empty are not added to
the mapping. -/
def buildWeightsDict (regionIds : List String)
    (neighborsDict : List (ℕ × List ℕ)) : List (String × List String) :=
  neighborsDict.filterMap (fun p =>
    if h : p.1 < regionIds.length then
      let region := regionIds.get ⟨p.1, h⟩
      let neighborRegions :=
        (p.2.filter (fun n => n ≠ p.1 && n < regionIds.length)).map
          (fun n => regionIds.getD n "")
      if neighborRegions.isEmpty then none else some (region, neighborRegions)
    else none)

/-! ## The series handed to the Engle-Granger test by `main` -/

/-- The aligned pair list that `run_cointegration_tests` hands to
`engle_granger` when called from `main` (line 436): the inner join of
the unit's RAW `usdprice` and `conflict_intensity` columns. -/
def mainEgInput (df : List Row) : List (Val × Val) :=
  innerJoinV (priceCol df).enum (conflictCol df).enum

/-- Modelled from the spec's words for comparison (claim C5): the input
the spec says the Engle-Granger test receives — the two
stationarity-selected TRANSFORMED series, inner-joined after the nulls
introduced by differencing are dropped. -/
def specEgInput (testsP testsC : StatTests) (lg : ℚ → ℚ) (df : List Row) :
    Option (List (Val × Val)) :=
  match run_stationarity_tests testsP lg (priceCol df),
        run_stationarity_tests testsC lg (conflictCol df) with
  | some sp, some sc => some (innerJoinV sp.series sc.series)
  | _, _ => none

/-! # Helper lemmas -/

theorem isStationaryCand_none {tests : StatTests} {t : Transform}
    (h : tests t = none) : isStationaryCand tests t = false := by
  unfold isStationaryCand
  rw [h]

theorem isStationaryCand_some {tests : StatTests} {t : Transform}
    {adfS adfP kpssS kpssP : ℚ} (h : tests t = some (adfS, adfP, kpssS, kpssP)) :
    isStationaryCand tests t = (decide (adfP < 0.05) && decide (0.05 < kpssP)) := by
  unfold isStationaryCand
  rw [h]

theorem statLoop_sel (tests : StatTests) :
    ∀ l : List Transform, (statLoop tests l).2.2 = l.find? (isStationaryCand tests) := by
  intro l
  induction l with
  | nil => rfl
  | cons t rest ih =>
    cases h : tests t with
    | none =>
      have hs := isStationaryCand_none h
      rw [List.find?_cons_of_neg _ (by rw [hs]; exact Bool.false_ne_true), ← ih]
      simp only [statLoop, h]
    | some q =>
      obtain ⟨adfS, adfP, kpssS, kpssP⟩ := q
      have hs := isStationaryCand_some h
      cases hb : (decide (adfP < 0.05) && decide (0.05 < kpssP)) with
      | true =>
        rw [List.find?_cons_of_pos _ (by rw [hs, hb])]
        simp only [statLoop, h, hb, if_true]
      | false =>
        rw [List.find?_cons_of_neg _ (by rw [hs, hb]; exact Bool.false_ne_true), ← ih]
        simp [statLoop, h, hb]

theorem statLoop_evaluated (tests : StatTests) :
    ∀ l : List Transform,
      (statLoop tests l).1 =
        l.takeWhile (fun t => !isStationaryCand tests t) ++
          (l.find? (isStationaryCand tests)).toList := by
  intro l
  induction l with
  | nil => rfl
  | cons t rest ih =>
    cases h : tests t with
    | none =>
      have hs := isStationaryCand_none h
      rw [List.find?_cons_of_neg _ (by rw [hs]; exact Bool.false_ne_true),
        List.takeWhile_cons]
      simp only [hs, Bool.not_false, if_true, List.cons_append]
      rw [← ih]
      simp only [statLoop, h]
    | some q =>
      obtain ⟨adfS, adfP, kpssS, kpssP⟩ := q
      have hs := isStationaryCand_some h
      cases hb : (decide (adfP < 0.05) && decide (0.05 < kpssP)) with
      | true =>
        rw [List.find?_cons_of_pos _ (by rw [hs, hb]), List.takeWhile_cons]
        simp [statLoop, h, hb, hs]
      | false =>
        rw [List.find?_cons_of_neg _ (by rw [hs, hb]; exact Bool.false_ne_true),
          List.takeWhile_cons]
        simp only [hs, hb, Bool.not_false, if_true, List.cons_append]
        rw [← ih]
        simp [statLoop, h, hb]

/-- A successful stationarity classification forces a clean series:
the NaN/Inf guard is the only path to `none`. -/
theorem clean_of_stat_some {tests : StatTests} {lg : ℚ → ℚ} {series : List Val}
    {o : StationarityOutcome} (h : run_stationarity_tests tests lg series = some o) :
    hasNanInf series = false := by
  by_contra hne
  have : hasNanInf series = true := by
    cases hh : hasNanInf series
    · exact absurd hh hne
    · rfl
  rw [run_stationarity_tests, if_pos this] at h
  exact Option.noConfusion h

/-! # Claim theorems -/

/-- C1: for every input series with no NaN/Inf values, the stationarity
classifier evaluates candidates in the fixed order original, diff, log,
log_diff (log variants present exactly when every value is strictly
positive), declares a candidate stationary iff its ADF p-value < 0.05
and its KPSS p-value > 0.05, selects the first candidate satisfying
both, stops evaluating later candidates, selects `original` when no
candidate qualifies, and the selected transformation is a member of the
evaluated candidate set. -/
theorem C1_stationarity_selection (tests : StatTests) (lg : ℚ → ℚ)
    (series : List Val) (hclean : hasNanInf series = false) :
    ∃ out, run_stationarity_tests tests lg series = some out ∧
      (candidates true = [Transform.original, Transform.diff, Transform.log,
          Transform.logDiff] ∧
        candidates false = [Transform.original, Transform.diff]) ∧
      (∀ t, isStationaryCand tests t = true ↔
        ∃ s ap ks kp, tests t = some (s, ap, ks, kp) ∧ ap < 0.05 ∧ 0.05 < kp) ∧
      out.transformation =
        ((candidates (series.all Val.isPos)).find?
            (isStationaryCand tests)).getD Transform.original ∧
      evaluatedCands tests series =
        (candidates (series.all Val.isPos)).takeWhile
            (fun t => !isStationaryCand tests t) ++
          ((candidates (series.all Val.isPos)).find?
              (isStationaryCand tests)).toList ∧
      out.transformation ∈ evaluatedCands tests series := by
  have hrun : run_stationarity_tests tests lg series =
      some ⟨((statLoop tests (candidates (series.all Val.isPos))).2.2).getD
          Transform.original,
        transformSeries lg series.enum
          (((statLoop tests (candidates (series.all Val.isPos))).2.2).getD
            Transform.original),
        (statLoop tests (candidates (series.all Val.isPos))).2.1⟩ := by
    rw [run_stationarity_tests, if_neg (by rw [hclean]; exact Bool.false_ne_true)]
  refine ⟨_, hrun, ⟨rfl, rfl⟩, ?_, ?_, ?_, ?_⟩
  · intro t
    constructor
    · intro ht
      cases h : tests t with
      | none => rw [isStationaryCand_none h] at ht; exact absurd ht Bool.false_ne_true
      | some q =>
        obtain ⟨s, ap, ks, kp⟩ := q
        rw [isStationaryCand_some h, Bool.and_eq_true, decide_eq_true_eq,
          decide_eq_true_eq] at ht
        exact ⟨s, ap, ks, kp, rfl, ht.1, ht.2⟩
    · rintro ⟨s, ap, ks, kp, h, h1, h2⟩
      rw [isStationaryCand_some h, Bool.and_eq_true, decide_eq_true_eq,
        decide_eq_true_eq]
      exact ⟨h1, h2⟩
  · exact congrArg (fun o => Option.getD o Transform.original) (statLoop_sel tests _)
  · exact statLoop_evaluated tests _
  · unfold evaluatedCands
    rw [statLoop_evaluated tests _]
    cases hf : (candidates (series.all Val.isPos)).find? (isStationaryCand tests) with
    | some t =>
      rw [statLoop_sel tests _, hf]
      exact List.mem_append_right _ (by simp)
    | none =>
      rw [statLoop_sel tests _, hf]
      refine List.mem_append_left _ ?_
      have horig : Transform.original ∈ candidates (series.all Val.isPos) := by
        cases series.all Val.isPos <;> exact List.mem_cons_self _ _
      rw [List.takeWhile_eq_self_iff.mpr ?_]
      · exact horig
      · intro x hx
        have hnone := List.find?_eq_none.mp hf x hx
        cases hcand : isStationaryCand tests x with
        | false => rfl
        | true => exact absurd hcand hnone

/-- Witness for C1 at a concrete clean series and oracle: the classifier
returns a result. -/
theorem C1_stationarity_selection_witness :
    (run_stationarity_tests
        (fun t => if t = Transform.diff then some (0, 0, 0, 1) else some (0, 1, 0, 1))
        (fun q => q) [Val.num 1, Val.num 2]).isSome = true := by
  obtain ⟨out, hout, -⟩ := C1_stationarity_selection
    (fun t => if t = Transform.diff then some (0, 0, 0, 1) else some (0, 1, 0, 1))
    (fun q => q) [Val.num 1, Val.num 2] (by decide)
  rw [hout]
  rfl

/-- C8: the stationarity classifier returns the failure signal (`None`)
iff the series contains a NaN or infinite value — stated for every
ADF/KPSS oracle, so on the failing branch no test outcome can influence
the result (no tests are run). -/
theorem C8_nan_inf_gate (tests : StatTests) (lg : ℚ → ℚ) (series : List Val) :
    (run_stationarity_tests tests lg series = none ↔ hasNanInf series = true) ∧
      (hasNanInf series = true ↔ ∃ v ∈ series, v = Val.nan ∨ v = Val.inf) := by
  constructor
  · constructor
    · intro h
      cases hn : hasNanInf series with
      | true => rfl
      | false =>
        rw [run_stationarity_tests, if_neg (by rw [hn]; exact Bool.false_ne_true)] at h
        exact Option.noConfusion h
    · intro h
      rw [run_stationarity_tests, if_pos h]
  · rw [hasNanInf, List.any_eq_true]
    constructor
    · rintro ⟨v, hv, hb⟩
      refine ⟨v, hv, ?_⟩
      cases v with
      | num q => simp [Val.isNull, Val.isInf] at hb
      | nan => exact Or.inl rfl
      | inf => exact Or.inr rfl
    · rintro ⟨v, hv, hb⟩
      refine ⟨v, hv, ?_⟩
      rcases hb with rfl | rfl <;> rfl

/-- On a clean column every cell is non-null. -/
theorem not_null_of_clean {l : List Val} (h : hasNanInf l = false) :
    ∀ v ∈ l, v.isNull = false := by
  intro v hv
  have hn := List.any_eq_false.mp h v hv
  cases hb : v.isNull with
  | false => rfl
  | true => exact absurd (by rw [hb]; rfl : (v.isNull || v.isInf) = true) hn

/-- With clean price and conflict columns, `dropna` plus inner alignment
keeps every row, so the aligned length is the group's row count. -/
theorem alignedLen_of_clean {df : List Row}
    (hp : hasNanInf (priceCol df) = false)
    (hc : hasNanInf (conflictCol df) = false) :
    alignedLen df = df.length := by
  unfold alignedLen
  rw [List.filter_eq_self.mpr]
  intro r hr
  have h1 := not_null_of_clean hp r.usdprice (List.mem_map_of_mem _ hr)
  have h2 := not_null_of_clean hc r.conflict (List.mem_map_of_mem _ hr)
  rw [h1, h2]
  rfl

/-- Below `MIN_OBSERVATIONS` rows the ECM gate always refuses. -/
theorem ecmAttempted_of_short {df : List Row}
    (h : df.length < MIN_OBSERVATIONS) (statRes) (cointRes) :
    ecmAttempted df statRes cointRes = false := by
  rw [ecmAttempted.eq_def, if_pos h]

/-- Any cointegration result the tester emits has `cointegrated` equal
to the truth of p-value < 0.05 (line 106). -/
theorem cointegrated_iff_pvalue {egO : EGOracle} {price conflict : Series}
    {pT cT : Transform} {c : CointResult}
    (h : run_cointegration_tests egO price conflict pT cT = some c) :
    c.eg.cointegrated = true ↔ c.eg.pvalue < 0.05 := by
  rw [run_cointegration_tests] at h
  split at h
  · exact Option.noConfusion h
  · cases heg : egO (innerJoinV price conflict) with
    | none => rw [heg] at h; exact Option.noConfusion h
    | some r =>
      rw [heg] at h
      have hc := (Option.some.inj h).symm
      subst hc
      dsimp only
      rw [decide_eq_true_eq]

/-- C2: ECM estimation is attempted for a unit iff its row count is at
least `MIN_OBSERVATIONS` and the pipeline's cointegration result for the
unit exists with `cointegrated = true` (`cointegrated` being EG p-value
< 0.05); a unit with exactly `MIN_OBSERVATIONS - 1` rows is absent from
the ECM results list. -/
theorem C2_ecm_gate (testsP testsC : StatTests) (egO : EGOracle) (lg : ℚ → ℚ)
    (df : List Row) :
    (ecmAttempted df (mainPrepUnit testsP testsC egO lg df).1
        (mainPrepUnit testsP testsC egO lg df).2 = true ↔
      MIN_OBSERVATIONS ≤ df.length ∧
        ∃ c, (mainPrepUnit testsP testsC egO lg df).2 = some c ∧
          c.eg.cointegrated = true) ∧
    (df.length = MIN_OBSERVATIONS - 1 → ∀ fit diag,
      unitInEcmResults df (mainPrepUnit testsP testsC egO lg df).1
        (mainPrepUnit testsP testsC egO lg df).2 fit diag = false) ∧
    (∀ c, (mainPrepUnit testsP testsC egO lg df).2 = some c →
      (c.eg.cointegrated = true ↔ c.eg.pvalue < 0.05)) := by
  refine ⟨?_, ?_, ?_⟩
  case refine_2 =>
    intro h29 fit diag
    have hlt : df.length < MIN_OBSERVATIONS := by
      rw [h29]
      decide
    rw [unitInEcmResults.eq_def, ecmAttempted_of_short hlt, Bool.false_and]
  case refine_3 =>
    intro c hc
    rw [mainPrepUnit] at hc
    split at hc
    · exact Option.noConfusion hc
    · split at hc
      case h_1 sp sc hp hcn =>
        exact cointegrated_iff_pvalue hc
      case h_2 =>
        exact Option.noConfusion hc
  · by_cases hlen : df.length < MIN_OBSERVATIONS
    · rw [mainPrepUnit, if_pos hlen]
      rw [ecmAttempted_of_short hlen]
      simp only [Bool.false_eq_true, false_iff]
      rintro ⟨hge, -⟩
      omega
    · cases hp : run_stationarity_tests testsP lg (priceCol df) with
      | none =>
        rw [mainPrepUnit, if_neg hlen, hp]
        dsimp only
        rw [ecmAttempted.eq_def, if_neg hlen]
        simp
      | some sp =>
        cases hc : run_stationarity_tests testsC lg (conflictCol df) with
        | none =>
          rw [mainPrepUnit, if_neg hlen, hp, hc]
          dsimp only
          rw [ecmAttempted.eq_def, if_neg hlen]
          simp
        | some sc =>
          rw [mainPrepUnit, if_neg hlen, hp, hc]
          dsimp only
          have halign : alignedLen df = df.length :=
            alignedLen_of_clean (clean_of_stat_some hp) (clean_of_stat_some hc)
          cases hcr : run_cointegration_tests egO (priceCol df).enum
              (conflictCol df).enum sp.transformation sc.transformation with
          | none =>
            rw [ecmAttempted.eq_def, if_neg hlen]
            simp
          | some c =>
            rw [ecmAttempted.eq_def, if_neg hlen]
            cases hco : c.eg.cointegrated with
            | false =>
              simp [hco]
            | true =>
              simp only [hco, Option.isNone_some, Bool.not_true, if_false,
                Bool.true_and, Bool.false_eq_true]
              rw [halign]
              simp only [decide_eq_true_eq]
              constructor
              · intro hge
                exact ⟨hge, c, rfl, hco⟩
              · rintro ⟨hge, -⟩
                exact hge

/-- Witness for C2: a unit with 29 = `MIN_OBSERVATIONS` - 1 rows never
reaches the ECM results list. -/
theorem C2_ecm_gate_witness :
    unitInEcmResults (List.replicate 29 ⟨Val.num 1, Val.num 1⟩)
      (mainPrepUnit (fun _ => some (0, 0, 0, 1)) (fun _ => some (0, 0, 0, 1))
        (fun _ => some ⟨0, 1/100, 1⟩) (fun q => q)
        (List.replicate 29 ⟨Val.num 1, Val.num 1⟩)).1
      (mainPrepUnit (fun _ => some (0, 0, 0, 1)) (fun _ => some (0, 0, 0, 1))
        (fun _ => some ⟨0, 1/100, 1⟩) (fun q => q)
        (List.replicate 29 ⟨Val.num 1, Val.num 1⟩)).2
      (some ⟨[1]⟩) ⟨some 1, some 1, some (0, 0, 0, 0), some 2, some (0, 1),
        some [], some []⟩ = false :=
  (C2_ecm_gate (fun _ => some (0, 0, 0, 1)) (fun _ => some (0, 0, 0, 1))
      (fun _ => some ⟨0, 1/100, 1⟩) (fun q => q)
      (List.replicate 29 ⟨Val.num 1, Val.num 1⟩)).2.1 (by decide) _ _

/-! ## Concrete fixtures for counterexamples and witnesses -/

/-- A clean 30-row group with constant columns. -/
def sampleDf30 : List Row := List.replicate 30 ⟨Val.num 1, Val.num 1⟩

/-- An ADF/KPSS oracle declaring every candidate stationary. -/
def sampleTests : StatTests := fun _ => some (0, 0, 0, 1)

/-- An ADF/KPSS oracle declaring only the `diff` candidate stationary. -/
def diffTests : StatTests :=
  fun t => if t = Transform.diff then some (0, 0, 0, 1) else some (0, 1, 0, 1)

/-- An Engle-Granger oracle reporting a cointegrating p-value. -/
def sampleEgO : EGOracle := fun _ => some ⟨0, 1/100, 1⟩

/-- An Engle-Granger oracle whose `rho` records the length of the series
pair it was invoked on. -/
def lenEgO : EGOracle := fun l => some ⟨0, 1/100, (l.length : ℚ)⟩

/-- A clean 30-row group with strictly increasing prices (so `diff`
differs from `original`) and constant conflict intensity. -/
def rampDf : List Row :=
  (List.range 30).map (fun i => ⟨Val.num ((i : ℚ) + 1), Val.num 5⟩)

/-- Diagnostic oracles where only the first test (Ljung-Box) raises. -/
def bgFailOracles : DiagOracles :=
  ⟨none, some 1, some (0, 1, 0, 3), some 2, some (1, 1), some [1], some [1]⟩

/-- C3 counterexample: a unit that passes the ECM gate and estimation,
whose Ljung-Box call raises while every sibling diagnostic call
succeeds, produces no diagnostic record at all and is dropped from the
ECM results list — the sibling diagnostics are not reported and the unit
is not kept, contrary to the claim. -/
theorem C3_counterexample :
    diagnosticsBlock bgFailOracles = none ∧
    bgFailOracles.arch.isSome = true ∧ bgFailOracles.jb.isSome = true ∧
    bgFailOracles.dw.isSome = true ∧ bgFailOracles.bp.isSome = true ∧
    bgFailOracles.acfVals.isSome = true ∧ bgFailOracles.pacfVals.isSome = true ∧
    ecmAttempted sampleDf30
      (mainPrepUnit sampleTests sampleTests sampleEgO (fun q => q) sampleDf30).1
      (mainPrepUnit sampleTests sampleTests sampleEgO (fun q => q) sampleDf30).2 = true ∧
    unitInEcmResults sampleDf30
      (mainPrepUnit sampleTests sampleTests sampleEgO (fun q => q) sampleDf30).1
      (mainPrepUnit sampleTests sampleTests sampleEgO (fun q => q) sampleDf30).2
      (some ⟨[1]⟩) bgFailOracles = false := by
  with_unfolding_all decide

/-- C3 amended: the diagnostics are computed in one sequential block —
the record exists iff every one of the seven tests returns, and when any
of them raises the whole unit is dropped from the ECM results list
(no per-test nulls, no partial record). -/
theorem C3_diagnostics_block (o : DiagOracles) :
    ((diagnosticsBlock o).isSome =
      (o.bg.isSome && o.arch.isSome && o.jb.isSome && o.dw.isSome &&
        o.bp.isSome && o.acfVals.isSome && o.pacfVals.isSome)) ∧
    (∀ (df : List Row) statRes cointRes fit, diagnosticsBlock o = none →
      unitInEcmResults df statRes cointRes fit o = false) := by
  obtain ⟨bg, arch, jb, dw, bp, acfv, pacfv⟩ := o
  constructor
  · cases bg <;> cases arch <;> cases jb <;> cases dw <;> cases bp <;>
      cases acfv <;> cases pacfv <;> rfl
  · intro df statRes cointRes fit h
    rw [unitInEcmResults.eq_def]
    cases fit with
    | none => simp
    | some f => simp [h]

/-- Witness for C3's amended statement: with the failing Ljung-Box
oracle the unit is dropped. -/
theorem C3_diagnostics_block_witness :
    unitInEcmResults [] none none none bgFailOracles = false :=
  (C3_diagnostics_block bgFailOracles).2 [] none none none rfl

/-- C5 counterexample: on a 30-row unit whose price series is classified
as `diff`-stationary, `main` hands the Engle-Granger test the 30 aligned
RAW pairs (the oracle records input length 30 in `rho`), while the
spec's description — the inner join of the two SELECTED transformed
series — has only 29 pairs; the two inputs differ. -/
theorem C5_counterexample :
    (mainEgInput rampDf).length = 30 ∧
    (specEgInput diffTests sampleTests (fun q => q) rampDf).map List.length =
      some 29 ∧
    ((mainPrepUnit diffTests sampleTests lenEgO (fun q => q) rampDf).2.map
      (fun c => c.eg.rho)) = some 30 ∧
    some (mainEgInput rampDf) ≠ specEgInput diffTests sampleTests (fun q => q) rampDf := by
  with_unfolding_all decide

/-- C5 amended: for every unit that reaches the cointegration stage, the
Engle-Granger oracle is invoked on the inner join of the unit's raw
`usdprice` and `conflict_intensity` columns (`mainEgInput`); the
stationarity results contribute only the recorded transformation labels,
not the series tested. -/
theorem C5_eg_raw_input (testsP testsC : StatTests) (egO : EGOracle) (lg : ℚ → ℚ)
    (df : List Row) (sp sc : StationarityOutcome)
    (hlen : ¬df.length < MIN_OBSERVATIONS)
    (hp : run_stationarity_tests testsP lg (priceCol df) = some sp)
    (hc : run_stationarity_tests testsC lg (conflictCol df) = some sc) :
    (mainPrepUnit testsP testsC egO lg df).2 =
      (if (mainEgInput df).length < 2 then none
       else
         match egO (mainEgInput df) with
         | none => none
         | some r =>
           some ⟨⟨r.stat, r.pvalue, decide (r.pvalue < 0.05), r.rho⟩,
             sp.transformation, sc.transformation⟩) := by
  rw [mainPrepUnit, if_neg hlen, hp, hc]
  dsimp only
  rfl

/-- Witness for C5's amended statement at a concrete 30-row unit. -/
theorem C5_eg_raw_input_witness :
    (mainPrepUnit sampleTests sampleTests sampleEgO (fun q => q) sampleDf30).2 =
      (if (mainEgInput sampleDf30).length < 2 then none
       else
         match sampleEgO (mainEgInput sampleDf30) with
         | none => none
         | some r =>
           some ⟨⟨r.stat, r.pvalue, decide (r.pvalue < 0.05), r.rho⟩,
             Transform.original, Transform.original⟩) :=
  C5_eg_raw_input sampleTests sampleTests sampleEgO (fun q => q) sampleDf30
    ⟨Transform.original, (priceCol sampleDf30).enum,
      [(Transform.original, ⟨0, 0, true, 0, 1, true⟩)]⟩
    ⟨Transform.original, (conflictCol sampleDf30).enum,
      [(Transform.original, ⟨0, 0, true, 0, 1, true⟩)]⟩
    (by decide) (by with_unfolding_all decide) (by with_unfolding_all decide)

/-! ## C6, C7: lag clamping and information criteria -/

/-- C6: the fitted lag order is `max(1, min(aic_selected, ecm_lags))`,
equal to `ecm_lags` when the AIC selection returns no order; it always
lies in `[1, ecm_lags]`, and the model is specified with cointegration
rank 1 and deterministic term "ci". -/
theorem C6_lag_clamping (aic : Option ℕ) (ecmLags : ℕ) (h : 1 ≤ ecmLags) :
    (∀ a, aic = some a →
      (estimateEcmSpec aic ecmLags).kArDiff = max 1 (min a ecmLags)) ∧
    (aic = none → (estimateEcmSpec aic ecmLags).kArDiff = ecmLags) ∧
    1 ≤ (estimateEcmSpec aic ecmLags).kArDiff ∧
    (estimateEcmSpec aic ecmLags).kArDiff ≤ ecmLags ∧
    (estimateEcmSpec aic ecmLags).cointRank = 1 ∧
    (estimateEcmSpec aic ecmLags).deterministic = "ci" := by
  refine ⟨?_, ?_, ?_, ?_, rfl, rfl⟩
  · rintro a rfl
    rfl
  · rintro rfl
    show max 1 (min ecmLags ecmLags) = ecmLags
    omega
  · show 1 ≤ max 1 (min (aic.getD ecmLags) ecmLags)
    omega
  · show max 1 (min (aic.getD ecmLags) ecmLags) ≤ ecmLags
    omega

/-- Witness for C6 with AIC choosing 5 under cap `ECM_LAGS = 2`. -/
theorem C6_lag_clamping_witness :
    1 ≤ (estimateEcmSpec (some 5) 2).kArDiff ∧
      (estimateEcmSpec (some 5) 2).kArDiff ≤ 2 :=
  ⟨(C6_lag_clamping (some 5) 2 (by decide)).2.2.1,
    (C6_lag_clamping (some 5) 2 (by decide)).2.2.2.1⟩

/-- C7: the reported criteria satisfy AIC = -2·llf + 2·k,
BIC = -2·llf + ln(n)·k and HQIC = -2·llf + 2·ln(ln(n))·k, where
k = neqs·(k_ar_diff + 1) + coint_rank is the parameter count and
n = neqs·(nobs - k_ar_diff) is the effective observation count after
differencing, exactly as `compute_model_criteria` forms them. -/
theorem C7_information_criteria (ln : ℚ → ℚ) (llf : ℚ)
    (neqs nobs kArDiff cointRank : ℤ) :
    compute_model_criteria ln llf neqs nobs kArDiff cointRank =
      (-2 * llf + 2 * ((neqs : ℚ) * ((kArDiff : ℚ) + 1) + (cointRank : ℚ)),
       -2 * llf + ln ((neqs : ℚ) * ((nobs : ℚ) - (kArDiff : ℚ))) *
         ((neqs : ℚ) * ((kArDiff : ℚ) + 1) + (cointRank : ℚ)),
       -2 * llf + 2 * ln (ln ((neqs : ℚ) * ((nobs : ℚ) - (kArDiff : ℚ)))) *
         ((neqs : ℚ) * ((kArDiff : ℚ) + 1) + (cointRank : ℚ))) := by
  have hk : ((kParamsOf neqs kArDiff cointRank : ℤ) : ℚ) =
      (neqs : ℚ) * ((kArDiff : ℚ) + 1) + (cointRank : ℚ) := by
    rw [kParamsOf]
    push_cast
    ring
  have hn : ((nObsOf neqs nobs kArDiff : ℤ) : ℚ) =
      (neqs : ℚ) * ((nobs : ℚ) - (kArDiff : ℚ)) := by
    rw [nObsOf]
    push_cast
    ring
  rw [compute_model_criteria, hk, hn]

/-! ## C4: the FEVD fallback formula -/

theorem foldl_add_range {M : Type} [AddCommMonoid M] (f : ℕ → M) :
    ∀ m : ℕ, (List.range m).foldl (fun acc j => acc + f j) 0 =
      ∑ j in Finset.range m, f j := by
  intro m
  induction m with
  | zero => rfl
  | succ m ih =>
    rw [List.range_succ, List.foldl_append, ih, Finset.sum_range_succ]
    rfl

theorem fevdVariance_eq_sum {n : ℕ} (ma : ℕ → Matrix (Fin n) (Fin n) ℚ)
    (omega : Matrix (Fin n) (Fin n) ℚ) (i : ℕ) :
    fevdVariance ma omega i =
      ∑ j in Finset.range (i + 1), ma j * omega * (ma j).transpose :=
  foldl_add_range (fun j => ma j * omega * (ma j).transpose) (i + 1)

/-- C4 counterexample: with the moving-average slice fixed to the
identity and residual matrix sigma_u = diag(1, 2) over one horizon step,
the code's fallback (which sandwiches `sigma_u @ sigma_u.T`) reports
variance shares (1/5, 4/5), while the claim's formula (sandwiching
`Σ_u = sigma_u` itself) gives (1/3, 2/3). -/
theorem C4_counterexample :
    (fevdFallback (fun _ => (1 : Matrix (Fin 2) (Fin 2) ℚ))
        (Matrix.of ![![(1 : ℚ), 0], ![0, 2]]) 1).map (fun f => (f 0, f 1)) =
      [(1/5, 4/5)] ∧
    (specFevdFallback (fun _ => (1 : Matrix (Fin 2) (Fin 2) ℚ))
        (Matrix.of ![![(1 : ℚ), 0], ![0, 2]]) 1).map (fun f => (f 0, f 1)) =
      [(1/3, 2/3)] ∧
    ((1 : ℚ)/5, (4 : ℚ)/5) ≠ ((1 : ℚ)/3, (2 : ℚ)/3) := by
  refine ⟨?_, ?_, by with_unfolding_all decide⟩ <;> with_unfolding_all decide

/-- C4 amended: each horizon-step vector of the fallback equals the
diagonal of `Σ_{j=0}^{i} MA_j · (Σ_u·Σ_uᵀ) · MA_jᵀ` normalized by its
trace — i.e. the claim's formula with the middle matrix `Σ_u` replaced
by the code's `omega = sigma_u @ sigma_u.T`. -/
theorem C4_fevd_formula {n : ℕ} (ma : ℕ → Matrix (Fin n) (Fin n) ℚ)
    (sigma : Matrix (Fin n) (Fin n) ℚ) (steps i : ℕ) (h : i < steps) :
    (fevdFallback ma sigma steps)[i]? =
      some (fun idx =>
        (∑ j in Finset.range (i + 1),
            ma j * (sigma * sigma.transpose) * (ma j).transpose).diag idx /
          Matrix.trace (∑ j in Finset.range (i + 1),
            ma j * (sigma * sigma.transpose) * (ma j).transpose)) := by
  unfold fevdFallback
  rw [List.getElem?_map, List.getElem?_range h, Option.map_some']
  refine congrArg some (funext fun idx => ?_)
  show (fevdVariance ma (sigma * sigma.transpose) i).diag idx /
      ∑ d, (fevdVariance ma (sigma * sigma.transpose) i).diag d = _
  rw [fevdVariance_eq_sum]
  rfl

/-- Witness for C4's amended statement at the concrete counterexample
input. -/
theorem C4_fevd_formula_witness :
    (fevdFallback (fun _ => (1 : Matrix (Fin 2) (Fin 2) ℚ))
        (Matrix.of ![![(1 : ℚ), 0], ![0, 2]]) 1)[0]? =
      some (fun idx =>
        (∑ j in Finset.range 1,
            (1 : Matrix (Fin 2) (Fin 2) ℚ) *
              (Matrix.of ![![(1 : ℚ), 0], ![0, 2]] *
                (Matrix.of ![![(1 : ℚ), 0], ![0, 2]]).transpose) *
              (1 : Matrix (Fin 2) (Fin 2) ℚ).transpose).diag idx /
          Matrix.trace (∑ j in Finset.range 1,
            (1 : Matrix (Fin 2) (Fin 2) ℚ) *
              (Matrix.of ![![(1 : ℚ), 0], ![0, 2]] *
                (Matrix.of ![![(1 : ℚ), 0], ![0, 2]]).transpose) *
              (1 : Matrix (Fin 2) (Fin 2) ℚ).transpose)) :=
  C4_fevd_formula (fun _ => (1 : Matrix (Fin 2) (Fin 2) ℚ))
    (Matrix.of ![![(1 : ℚ), 0], ![0, 2]]) 1 0 (by decide)

/-! ## C9: the connectivity-repair loop -/

theorem loopIters_le (connected : ℕ → Bool) :
    ∀ (r k : ℕ), loopIters connected k r ≤ r := by
  intro r
  induction r with
  | zero => intro k; exact Nat.le_refl 0
  | succ r ih =>
    intro k
    rw [loopIters]
    cases connected k with
    | true => simp
    | false =>
      simp only [if_false, Bool.false_eq_true]
      have := ih (k + 1)
      omega

theorem loopRun_first (connected : ℕ → Bool) :
    ∀ (r k k0 : ℕ), k ≤ k0 → k0 < k + r → connected k0 = true →
      (∀ j, k ≤ j → j < k0 → connected j = false) →
      loopRun connected k r = k0 := by
  intro r
  induction r with
  | zero =>
    intro k k0 h1 h2
    omega
  | succ r ih =>
    intro k k0 h1 h2 h3 h4
    rw [loopRun]
    cases hck : connected k with
    | true =>
      simp only [if_true]
      rcases Nat.eq_or_lt_of_le h1 with heq | hlt
      · exact heq
      · exact absurd hck (by rw [h4 k (Nat.le_refl k) hlt]; exact Bool.false_ne_true)
    | false =>
      simp only [Bool.false_eq_true, if_false]
      have hk0 : k + 1 ≤ k0 := by
        rcases Nat.eq_or_lt_of_le h1 with heq | hlt
        · exact absurd h3 (by rw [← heq, hck]; exact Bool.false_ne_true)
        · exact hlt
      exact ih (k + 1) k0 hk0 (by omega) h3
        (fun j hj1 hj2 => h4 j (by omega) hj2)

theorem loopRun_exhaust (connected : ℕ → Bool) :
    ∀ (r k : ℕ), (∀ j, k ≤ j → j < k + r → connected j = false) →
      loopRun connected k r = k + r := by
  intro r
  induction r with
  | zero =>
    intro k h
    rfl
  | succ r ih =>
    intro k h
    rw [loopRun]
    have hck : connected k = false := h k (Nat.le_refl k) (by omega)
    rw [hck]
    simp only [Bool.false_eq_true, if_false]
    have := ih (k + 1) (fun j hj1 hj2 => h j (by omega) (by omega))
    omega

/-- C9: starting at `initial_k ≤ max_k`, the loop performs at most
`max_k - initial_k + 1` iterations; it settles on the first connected
`k ≤ max_k` when one exists, and otherwise on `k = max_k` (the weights
are rebuilt with `k_final = max_k` rather than raising). -/
theorem C9_k_search (connected : ℕ → Bool) (initK maxK : ℕ)
    (h : initK ≤ maxK) :
    loopIters connected initK (maxK + 1 - initK) ≤ maxK - initK + 1 ∧
    (∀ k0, initK ≤ k0 → k0 ≤ maxK → connected k0 = true →
      (∀ j < k0, initK ≤ j → connected j = false) →
      finalK connected initK maxK = k0 ∧
        connected (finalK connected initK maxK) = true ∧
        ∀ (W : Type) (knn : ℕ → W),
          finalWeights knn connected initK maxK = knn k0) ∧
    ((∀ j ≤ maxK, initK ≤ j → connected j = false) →
      finalK connected initK maxK = maxK ∧
        ∀ (W : Type) (knn : ℕ → W),
          finalWeights knn connected initK maxK = knn maxK) := by
  refine ⟨?_, ?_, ?_⟩
  · have := loopIters_le connected (maxK + 1 - initK) initK
    omega
  · intro k0 h1 h2 h3 h4
    have hrun : loopRun connected initK (maxK + 1 - initK) = k0 :=
      loopRun_first connected (maxK + 1 - initK) initK k0 h1 (by omega) h3
        (fun j hj1 hj2 => h4 j hj2 hj1)
    have hfin : finalK connected initK maxK = k0 := by
      rw [finalK, hrun, if_neg (by omega)]
    refine ⟨hfin, by rw [hfin]; exact h3, fun W knn => ?_⟩
    rw [finalWeights, hfin]
  · intro hnone
    have hrun : loopRun connected initK (maxK + 1 - initK) =
        initK + (maxK + 1 - initK) :=
      loopRun_exhaust connected (maxK + 1 - initK) initK
        (fun j hj1 hj2 => hnone j (by omega) hj1)
    have hfin : finalK connected initK maxK = maxK := by
      rw [finalK, hrun, if_pos (by omega)]
      omega
    exact ⟨hfin, fun W knn => by rw [finalWeights, hfin]⟩

/-- Witness for C9: with `initial_k = 5`, `max_k = 20` and graphs
connected exactly from `k = 7` on, the loop settles on `k = 7`. -/
theorem C9_k_search_witness :
    finalK (fun k => decide (7 ≤ k)) 5 20 = 7 ∧
      (fun k => decide (7 ≤ k)) (finalK (fun k => decide (7 ≤ k)) 5 20) = true ∧
      ∀ (W : Type) (knn : ℕ → W),
        finalWeights knn (fun k => decide (7 ≤ k)) 5 20 = knn 7 :=
  (C9_k_search (fun k => decide (7 ≤ k)) 5 20 (by decide)).2.1 7
    (by decide) (by decide) (by decide) (by decide)

/-! ## C10: invariants of the exported weights mapping -/

/-- C10: when the region identifiers are pairwise distinct (checked by
`check_unique_identifier` before export), every entry of the exported
mapping satisfies: the region's own identifier is not among its
neighbors, the neighbor list is nonempty (empty lists are omitted, not
exported), and every listed neighbor is the identifier at some in-bounds
index of the unique-region list. -/
theorem C10_weights_invariants (regionIds : List String)
    (neighborsDict : List (ℕ × List ℕ)) (hnodup : regionIds.Nodup) :
    ∀ p ∈ buildWeightsDict regionIds neighborsDict,
      p.1 ∉ p.2 ∧ p.2 ≠ [] ∧
      ∀ nb ∈ p.2, ∃ i, ∃ hi : i < regionIds.length,
        regionIds.get ⟨i, hi⟩ = nb := by
  intro p hp
  rw [buildWeightsDict, List.mem_filterMap] at hp
  obtain ⟨⟨regionIdx, neighbors⟩, -, hf⟩ := hp
  dsimp only at hf
  split at hf
  case isFalse => exact Option.noConfusion hf
  case isTrue hlt =>
    split at hf
    case isTrue => exact Option.noConfusion hf
    case isFalse hne =>
      have hp := (Option.some.inj hf).symm
      subst hp
      dsimp only
      refine ⟨?_, ?_, ?_⟩
      · intro hmem
        rw [List.mem_map] at hmem
        obtain ⟨m, hmf, hmeq⟩ := hmem
        rw [List.mem_filter] at hmf
        obtain ⟨-, hcond⟩ := hmf
        rw [Bool.and_eq_true, decide_eq_true_eq, decide_eq_true_eq] at hcond
        obtain ⟨hmne, hmlt⟩ := hcond
        rw [List.getD_eq_getElem?_getD, List.getElem?_eq_getElem hmlt] at hmeq
        have : (⟨m, hmlt⟩ : Fin regionIds.length) = ⟨regionIdx, hlt⟩ := by
          rw [← List.Nodup.get_inj_iff hnodup]
          rw [List.get_eq_getElem, List.get_eq_getElem]
          exact hmeq
        exact hmne (congrArg Fin.val this)
      · intro hempty
        exact hne (by rw [hempty]; rfl)
      · intro nb hnb
        rw [List.mem_map] at hnb
        obtain ⟨m, hmf, hmeq⟩ := hnb
        rw [List.mem_filter] at hmf
        obtain ⟨-, hcond⟩ := hmf
        rw [Bool.and_eq_true, decide_eq_true_eq, decide_eq_true_eq] at hcond
        refine ⟨m, hcond.2, ?_⟩
        rw [List.get_eq_getElem]
        rw [List.getD_eq_getElem?_getD, List.getElem?_eq_getElem hcond.2] at hmeq
        exact hmeq

/-- Witness for C10 on a concrete three-region list: the kept entry for
region "a" lists only distinct in-bounds neighbors, and the empty entry
is omitted. -/
theorem C10_weights_invariants_witness :
    ("a", ["b", "c"]).1 ∉ ("a", ["b", "c"]).2 ∧ ("a", ["b", "c"]).2 ≠ [] ∧
      ∀ nb ∈ ("a", ["b", "c"]).2, ∃ i, ∃ hi : i < (["a", "b", "c"] : List String).length,
        (["a", "b", "c"] : List String).get ⟨i, hi⟩ = nb :=
  C10_weights_invariants ["a", "b", "c"] [(0, [1, 2, 0]), (5, [0]), (1, [])]
    (by decide) ("a", ["b", "c"]) (by decide)

end YemenEcm
